import Mathlib

/-!
Shallow embedding of the neural-network core in `src/v2/mod.rs` (structs
`Neuron`, `DenseLayer`, `ArtificialNetwork` and their methods), over `ℚ`
in place of `f64`.

Conventions of the embedding:
* nalgebra's compile-time dimensions (`SVector<f64, D>`, `SMatrix<f64, O, I>`)
  become plain lists together with the well-formedness predicate
  `DenseLayer.WF`, which records exactly the length facts the Rust types
  guarantee.
* A Rust `panic!` (failed `from_vec` length assertion, out-of-bounds index,
  dimension-mismatch assertion, `%` by zero) is modelled as `Option.none`;
  every fallible method returns an `Option`.
* `&mut self` methods return the updated structure explicitly.
* Misspelled source names (`foward`) are kept as in the source.
-/

/-- The activation contract consumed by `DenseLayer` (`Activation` lives in
the out-of-scope `activations` module): a function/derivative pair. -/
structure Activation where
  f : ℚ → ℚ
  d : ℚ → ℚ

/-- Rust `Neuron<const D: usize>`: a weight vector and a bias. -/
structure Neuron where
  weights : List ℚ
  bias : ℚ

/-- Rust `DenseLayer<const IN_FMT, const OUT_FMT>`. `inFmt`/`outFmt` carry the
const-generic dimensions; the list fields mirror `neurons`, `weights_mat`,
`bias_vec`, `last_result` and `error`. -/
structure DenseLayer where
  inFmt : ℕ
  outFmt : ℕ
  neurons : List Neuron
  weights_mat : List (List ℚ)
  bias_vec : List ℚ
  activation : Activation
  last_result : List ℚ
  error : List ℚ

/-- Default neuron, used only as the `getD` fallback. -/
def dNeuron : Neuron := ⟨[], 0⟩

/-- Default layer, used only as the `getD` fallback. -/
def dfl : DenseLayer := ⟨0, 0, [], [], [], ⟨fun x => x, fun x => x⟩, [], []⟩

/-- The length facts guaranteed by the Rust types: `neurons` has `OUT_FMT`
entries whose weight vectors are `SVector<f64, IN_FMT>`, `weights_mat` is
`SMatrix<f64, OUT_FMT, IN_FMT>`, and `bias_vec`, `last_result`, `error` are
`SVector<f64, OUT_FMT>`. -/
def DenseLayer.WF (L : DenseLayer) : Prop :=
  L.neurons.length = L.outFmt ∧
  (∀ n ∈ L.neurons, n.weights.length = L.inFmt) ∧
  L.weights_mat.length = L.outFmt ∧
  (∀ r ∈ L.weights_mat, r.length = L.inFmt) ∧
  L.bias_vec.length = L.outFmt ∧
  L.last_result.length = L.outFmt ∧
  L.error.length = L.outFmt

instance (L : DenseLayer) : Decidable L.WF := by
  unfold DenseLayer.WF; infer_instance

/-- Rust `inputs.dot(&weights)`: dot product of two (equally long) vectors. -/
def dot (xs ys : List ℚ) : ℚ := (List.zipWith (· * ·) xs ys).sum

/-- Rust `fn format(&self) -> (usize, usize) { (I, O) }` -/
def DenseLayer.format (L : DenseLayer) : ℕ × ℕ := (L.inFmt, L.outFmt)

/-- Rust `fn foward(&self, inputs: Vec<f64>) -> Vec<f64>`:
`SVector::from_vec(inputs)` asserts the input length is `IN_FMT` (panic
modelled as `none`); then `out = weights_mat * input_vec + bias_vec` and the
activation is mapped over `out`. -/
def DenseLayer.foward (L : DenseLayer) (inputs : List ℚ) : Option (List ℚ) :=
  if inputs.length = L.inFmt then
    let out := List.zipWith (fun row b => dot row inputs + b) L.weights_mat L.bias_vec
    some (out.map fun o => L.activation.f o)
  else none

/-- Rust `fn foward_mut(&mut self, inputs) -> Vec<f64>`: runs `foward` and caches
the result in `last_result`. -/
def DenseLayer.foward_mut (L : DenseLayer) (inputs : List ℚ) :
    Option (DenseLayer × List ℚ) :=
  (L.foward inputs).map fun res => ({ L with last_result := res }, res)

/-- Rust `fn get_weights(&self) -> Vec<Vec<f64>>`: one row per neuron, read from
the authoritative per-neuron vectors (not from `weights_mat`). -/
def DenseLayer.get_weights (L : DenseLayer) : List (List ℚ) :=
  L.neurons.map fun n => n.weights

/-- Rust `fn get_last_result(&self) -> Vec<f64>` -/
def DenseLayer.get_last_result (L : DenseLayer) : List ℚ := L.last_result

/-- Rust `fn get_errors(&self) -> Vec<f64>` -/
def DenseLayer.get_errors (L : DenseLayer) : List ℚ := L.error

/-- Rust `fn backward_output(&mut self, expected) -> Vec<f64>`:
`error = (expected - last_result)`, squared elementwise, then multiplied
elementwise by the derivative evaluated on `last_result`; the result is
cached in `error` and returned. `SVector::from_vec(expected)` asserts the
length is `OUT_FMT`. -/
def DenseLayer.backward_output (L : DenseLayer) (expected : List ℚ) :
    Option (DenseLayer × List ℚ) :=
  if expected.length = L.outFmt then
    let e1 := List.zipWith (· - ·) expected L.last_result
    let e2 := List.zipWith (· * ·) e1 e1
    let derivatives := L.last_result.map fun o => L.activation.d o
    let err := List.zipWith (· * ·) e2 derivatives
    some ({ L with error := err }, err)
  else none

/-- Rust `fn backward(&mut self, nl_ws: Vec<Vec<f64>>, nl_deltas: Vec<f64>)`:
the source flattens `nl_ws` row-major and rebuilds it with
`DMatrix::from_vec(R, C, ...)`, which fills COLUMN-major; hence entry
`(i, j)` of the rebuilt matrix is `flat[j * R + i]`, and row `j` of its
transpose is the slice `flat[j*R .. j*R+R]`.  Panics modelled as `none`:
`nl_ws[0]` on an empty list, the `from_vec` length assertion, the
`transpose * nl_deltas` dimension check (`nl_deltas.len() = R`) and the
`component_mul` shape check (`C = OUT_FMT`). -/
def DenseLayer.backward (L : DenseLayer) (nl_ws : List (List ℚ))
    (nl_deltas : List ℚ) : Option (DenseLayer × List ℚ) :=
  match nl_ws with
  | [] => none
  | w0 :: _ =>
    let R := nl_ws.length
    let C := w0.length
    let flat := nl_ws.flatten
    if flat.length = R * C ∧ nl_deltas.length = R ∧ C = L.outFmt then
      let derivatives := L.last_result.map fun o => L.activation.d o
      let e := (List.range C).map fun j => dot ((flat.drop (j * R)).take R) nl_deltas
      let err := List.zipWith (· * ·) e derivatives
      some ({ L with error := err }, err)
    else none

/-- One row of the `update_layer` double loop, starting at column index `j`:
entry `j` becomes `x - l_rate * e * pl_result[j]` for every `j` below the
weight count `jmax` of the corresponding neuron. -/
def updRowUpto (l_rate e : ℚ) (pl_result : List ℚ) (jmax : ℕ) :
    List ℚ → ℕ → List ℚ
  | [], _ => []
  | x :: xs, j =>
    (if j < jmax then x - l_rate * e * pl_result.getD j 0 else x) ::
      updRowUpto l_rate e pl_result jmax xs (j + 1)

/-- The `weights_mat` update of `update_layer`, starting at row index `i`:
row `i` is rewritten (columns up to neuron `i`'s weight count) for every
`i` below the neuron count. -/
def updMat (l_rate : ℚ) (err pl_result : List ℚ) (neurons : List Neuron) :
    List (List ℚ) → ℕ → List (List ℚ)
  | [], _ => []
  | row :: rows, i =>
    (if i < neurons.length then
        updRowUpto l_rate (err.getD i 0) pl_result
          ((neurons.getD i dNeuron).weights.length) row 0
      else row) :: updMat l_rate err pl_result neurons rows (i + 1)

/-- The `bias_vec` update of `update_layer`, starting at index `i`:
`bias_vec[i] -= l_rate * error[i]` for every `i` below the neuron count. -/
def updBias (l_rate : ℚ) (err : List ℚ) (nCount : ℕ) : List ℚ → ℕ → List ℚ
  | [], _ => []
  | b :: bs, i =>
    (if i < nCount then b - l_rate * err.getD i 0 else b) ::
      updBias l_rate err nCount bs (i + 1)

/-- Rust `fn update_layer(&mut self, pl_result: Vec<f64>, l_rate: f64)`: in-place
gradient step on `weights_mat` and `bias_vec` (the neurons are not touched).
`pl_result[j]` panics when a neuron's weight count exceeds `pl_result`'s
length (modelled as `none`). -/
def DenseLayer.update_layer (L : DenseLayer) (pl_result : List ℚ)
    (l_rate : ℚ) : Option DenseLayer :=
  if ∀ n ∈ L.neurons, n.weights.length ≤ pl_result.length then
    some { L with
      weights_mat := updMat l_rate L.error pl_result L.neurons L.weights_mat 0,
      bias_vec := updBias l_rate L.error L.neurons.length L.bias_vec 0 }
  else none

/-- Helper for stating cache independence: reset the two caches of a layer
(`last_result` and `error`), leaving weights, biases and activation alone. -/
def clearCaches (L : DenseLayer) : DenseLayer :=
  { L with last_result := [], error := [] }

/-- Rust `pub struct ArtificialNetwork { layers: Vec<Box<dyn NetLayer>> }`
(`DenseLayer` is the only `NetLayer` implementation in the repository). -/
structure ArtificialNetwork where
  layers : List DenseLayer

/-- The `for layer in &self.layers { inputs = layer.foward(inputs) }` loop. -/
def fowardLayers : List DenseLayer → List ℚ → Option (List ℚ)
  | [], inputs => some inputs
  | l :: ls, inputs => (l.foward inputs).bind fun out => fowardLayers ls out

/-- Rust `pub fn foward(&self, inputs: Vec<f64>) -> Vec<f64>`: chains
`layer.foward` across the layers in order; `&self`, so nothing is mutated. -/
def ArtificialNetwork.foward (net : ArtificialNetwork) (inputs : List ℚ) :
    Option (List ℚ) :=
  fowardLayers net.layers inputs

/-- The `for layer in &mut self.layers { inputs = layer.foward_mut(inputs) }`
loop, threading the mutated layers. -/
def fowardMutLayers : List DenseLayer → List ℚ → Option (List DenseLayer × List ℚ)
  | [], inputs => some ([], inputs)
  | l :: ls, inputs =>
    (l.foward_mut inputs).bind fun p =>
      (fowardMutLayers ls p.2).bind fun q => some (p.1 :: q.1, q.2)

/-- Rust `fn foward_mut(&mut self, inputs) -> Vec<f64>` on the network. -/
def ArtificialNetwork.foward_mut (net : ArtificialNetwork) (inputs : List ℚ) :
    Option (ArtificialNetwork × List ℚ) :=
  (fowardMutLayers net.layers inputs).map fun p => (⟨p.1⟩, p.2)

/-- Rust `fn verify_new_layer(&self, new_layer)`: when the network is non-empty,
compare the last layer's output format with the new layer's input format;
`true` means "does not panic". -/
def ArtificialNetwork.verify_new_layer (net : ArtificialNetwork)
    (new_layer : DenseLayer) : Prop :=
  match net.layers.getLast? with
  | none => True
  | some lastL => lastL.format.2 = new_layer.format.1

instance (net : ArtificialNetwork) (l : DenseLayer) :
    Decidable (net.verify_new_layer l) := by
  unfold ArtificialNetwork.verify_new_layer
  cases net.layers.getLast? <;> infer_instance

/-- Rust `pub fn add_layer(&mut self, layer)`: validates via `verify_new_layer`
(panic modelled as `none`), then pushes the layer. -/
def ArtificialNetwork.add_layer (net : ArtificialNetwork) (layer : DenseLayer) :
    Option ArtificialNetwork :=
  if net.verify_new_layer layer then some ⟨net.layers ++ [layer]⟩ else none

/-- The `for i in (0..self.layers.len()-1).rev()` loop of `backward`,
applied to the non-terminal layers listed from LAST to FIRST; `ll_ws` and the
deltas are re-read from each freshly processed layer. -/
def backwardRev : List DenseLayer → List (List ℚ) → List ℚ →
    Option (List DenseLayer)
  | [], _, _ => some []
  | l :: ls, ll_ws, deltas =>
    (l.backward ll_ws deltas).bind fun p =>
      (backwardRev ls p.1.get_weights p.2).bind fun ls' => some (p.1 :: ls')

/-- Rust `fn backward(&mut self, expected)`: `backward_output` on the terminal
layer (indexing `layers[size - 1]` panics on an empty network), then the
reversed loop over the remaining layers. -/
def ArtificialNetwork.backward (net : ArtificialNetwork) (expected : List ℚ) :
    Option ArtificialNetwork :=
  match net.layers.reverse with
  | [] => none
  | lastL :: restRev =>
    (lastL.backward_output expected).bind fun p =>
      (backwardRev restRev p.1.get_weights p.2).bind fun rest' =>
        some ⟨(p.1 :: rest').reverse⟩

/-- The `for i in &mut (1..self.layers.len())` update loop of `learn`,
recursed over the tail: each layer is updated with the (current)
`get_last_result` of its predecessor. -/
def updateLoopAux (l_rate : ℚ) : DenseLayer → List DenseLayer →
    Option (List DenseLayer)
  | _, [] => some []
  | prev, l :: ls =>
    (l.update_layer prev.get_last_result l_rate).bind fun l' =>
      (updateLoopAux l_rate l' ls).bind fun ls' => some (l' :: ls')

/-- The whole update pass of `learn`: layer `0` is never visited (the loop
starts at index `1`). -/
def updateLoop (layers : List DenseLayer) (l_rate : ℚ) :
    Option (List DenseLayer) :=
  match layers with
  | [] => some []
  | l0 :: rest => (updateLoopAux l_rate l0 rest).bind fun rest' => some (l0 :: rest')

/-- Rust `fn get_loss(&self, input, expected) -> f64`: reads the terminal layer's
format (`layers[len - 1]` panics when empty), runs a fresh `foward` pass, and
sums the squared elementwise differences; the two `DMatrix::from_vec`
reshapes assert both vectors have the terminal output width. -/
def ArtificialNetwork.get_loss (net : ArtificialNetwork)
    (input expected : List ℚ) : Option ℚ :=
  match net.layers.getLast? with
  | none => none
  | some lastL =>
    (net.foward input).bind fun out =>
      if out.length = lastL.format.2 ∧ expected.length = lastL.format.2 then
        some (List.zipWith (fun o e => (o - e) * (o - e)) out expected).sum
      else none

/-- Rust `fn learn(&mut self, inputs, expected, l_rate) -> f64`: forward pass with
caching, backward pass, update loop (from layer 1), then a fresh loss. -/
def ArtificialNetwork.learn (net : ArtificialNetwork)
    (inputs expected : List ℚ) (l_rate : ℚ) : Option (ArtificialNetwork × ℚ) :=
  (net.foward_mut inputs).bind fun p =>
    (p.1.backward expected).bind fun net2 =>
      (updateLoop net2.layers l_rate).bind fun ls3 =>
        ((⟨ls3⟩ : ArtificialNetwork).get_loss inputs expected).map fun loss =>
          ((⟨ls3⟩ : ArtificialNetwork), loss)

/-- The `for i in 0..epochs` loop of `train`, with the running `loss2`.
Epoch `i` uses sample index `i % inputs.len()` for both lists; `% 0` and the
two indexings panic (modelled as `none`). -/
def trainLoop (inputs expected : List (List ℚ)) (l_rate : ℚ) :
    ℕ → ArtificialNetwork → ℕ → ℚ → Option (ArtificialNetwork × ℚ)
  | 0, net, _, loss2 => some (net, loss2)
  | r + 1, net, i, _ =>
    if inputs.length ≠ 0 ∧ i % inputs.length < expected.length then
      (net.learn (inputs.getD (i % inputs.length) [])
          (expected.getD (i % inputs.length) []) l_rate).bind fun p =>
        trainLoop inputs expected l_rate r p.1 (i + 1) p.2
    else none

/-- Rust `pub fn train(&mut self, inputs, expected, l_rate, epochs) -> (f64, f64)`:
one `learn` step on sample `0` (its loss is `loss1`), then the epoch loop
starting from `loss2 = 0.`; `inputs[0]`/`expected[0]` panic on empty lists. -/
def ArtificialNetwork.train (net : ArtificialNetwork)
    (inputs expected : List (List ℚ)) (l_rate : ℚ) (epochs : ℕ) :
    Option (ArtificialNetwork × ℚ × ℚ) :=
  if inputs ≠ [] ∧ expected ≠ [] then
    (net.learn (inputs.getD 0 []) (expected.getD 0 []) l_rate).bind fun p =>
      (trainLoop inputs expected l_rate epochs p.1 0 0).map fun q =>
        (q.1, p.2, q.2)
  else none

/-! ## Spec-side definitions

These follow the words of the specification (for refinement-style claims),
to be compared with the source-derived definitions above. -/

/-- The delta the spec assigns to `backward_output`: component `i` is
`(expected[i] - last_result[i])^2 * d(last_result[i])`. -/
def specOutputDelta (L : DenseLayer) (expected : List ℚ) : List ℚ :=
  (List.range L.outFmt).map fun i =>
    (expected.getD i 0 - L.last_result.getD i 0) ^ 2 *
      L.activation.d (L.last_result.getD i 0)

/-- The delta claim C3 assigns to `backward`: the genuine transpose product
`nl_ws^T * nl_deltas` — component `j` sums `nl_ws[i][j] * nl_deltas[i]` over
the next-layer units `i` (one ROW of `nl_ws` per next-layer unit) — then
multiplied elementwise by the derivative evaluated on `last_result`. -/
def specBackwardDelta (L : DenseLayer) (nl_ws : List (List ℚ))
    (nl_deltas : List ℚ) : List ℚ :=
  let e := (List.range L.outFmt).map fun j =>
    (List.zipWith (fun row delta => row.getD j 0 * delta) nl_ws nl_deltas).sum
  List.zipWith (· * ·) e (L.last_result.map fun o => L.activation.d o)

/-- The training-step sequence the spec describes for `train`: starting from
the network `n1` left by the initial `learn` on sample `0`, step `k` trains
on `(inputs[k mod N], expected[k mod N])`. `specNetAfterStep ... k` is the
network after the first `k` steps. -/
def specNetAfterStep (inputs expected : List (List ℚ)) (l_rate : ℚ)
    (n1 : ArtificialNetwork) : ℕ → Option ArtificialNetwork
  | 0 => some n1
  | k + 1 =>
    (specNetAfterStep inputs expected l_rate n1 k).bind fun n =>
      (n.learn (inputs.getD (k % inputs.length) [])
        (expected.getD (k % inputs.length) []) l_rate).map fun p => p.1

/-- The loss produced by step `k` of the spec's training-step sequence. -/
def specStepLoss (inputs expected : List (List ℚ)) (l_rate : ℚ)
    (n1 : ArtificialNetwork) (k : ℕ) : Option ℚ :=
  (specNetAfterStep inputs expected l_rate n1 k).bind fun n =>
    (n.learn (inputs.getD (k % inputs.length) [])
      (expected.getD (k % inputs.length) []) l_rate).map fun p => p.2

/-! ## Concrete instances used by the witnesses and counterexamples -/

/-- Identity activation with constant derivative `1` (an `Activation` is
caller-supplied; this is the simplest instance). -/
def exAct : Activation := ⟨fun x => x, fun _ => 1⟩

/-- A well-formed `1 → 1` layer with weight `1` and bias `0`. -/
def L1ex : DenseLayer := ⟨1, 1, [⟨[1], 0⟩], [[1]], [0], exAct, [0], [0]⟩

/-- A `2 → 1` layer (input width `2`), incompatible after `L1ex`. -/
def LbadEx : DenseLayer := ⟨2, 1, [⟨[1, 1], 0⟩], [[1, 1]], [0], exAct, [0], [0]⟩

/-- A one-layer network. -/
def exNet1 : ArtificialNetwork := ⟨[L1ex]⟩

/-- A two-layer `1 → 1 → 1` network. -/
def exNet2 : ArtificialNetwork := ⟨[L1ex, L1ex]⟩

/-- The first layer of `exNet2` after one `learn [1] [0]` step: only the
caches changed. -/
def l0f : DenseLayer := ⟨1, 1, [⟨[1], 0⟩], [[1]], [0], exAct, [1], [1]⟩

/-- The second layer of `exNet2` after one `learn [1] [0]` step with rate
`1`: weight `1 - 1*1*1 = 0`, bias `0 - 1*1 = -1`, caches set. -/
def l1f : DenseLayer := ⟨1, 1, [⟨[1], 0⟩], [[0]], [-1], exAct, [1], [1]⟩

/-- A `1 → 1` layer with nonzero error cache `[2]`, for the `update_layer`
witnesses. -/
def LexC7 : DenseLayer := ⟨1, 1, [⟨[1], 0⟩], [[5]], [3], exAct, [0], [2]⟩

/-- Layer `LexC7` after `update_layer [7] 1`: weight `5 - 1*2*7 = -9`, bias
`3 - 1*2 = 1`; neurons and caches untouched. -/
def LexC7' : DenseLayer := ⟨1, 1, [⟨[1], 0⟩], [[-9]], [1], exAct, [0], [2]⟩

/-- A `2 → 2` layer with `last_result = [0,0]` and derivative `1`
everywhere, used for the C3 divergence. -/
def L3ex : DenseLayer :=
  ⟨2, 2, [⟨[0, 0], 0⟩, ⟨[0, 0], 0⟩], [[0, 0], [0, 0]], [0, 0], exAct,
    [0, 0], [0, 0]⟩

/-! ## General list helpers -/

theorem getD_map_eq {α β : Type} (f : α → β) :
    ∀ (l : List α) (i : ℕ) (d : α), f (l.getD i d) = (l.map f).getD i (f d)
  | [], _, _ => rfl
  | _ :: _, 0, _ => rfl
  | _ :: l, i + 1, d => getD_map_eq f l i d

theorem map_eq_imp_getD {α β : Type} {f : α → β} {l₁ l₂ : List α}
    (h : l₁.map f = l₂.map f) (i : ℕ) (d : α) :
    f (l₁.getD i d) = f (l₂.getD i d) := by
  rw [getD_map_eq f l₁ i d, getD_map_eq f l₂ i d, h]

theorem map_eq_imp_length {α β : Type} {f : α → β} {l₁ l₂ : List α}
    (h : l₁.map f = l₂.map f) : l₁.length = l₂.length := by
  have := congrArg List.length h
  simpa using this

theorem zipWith_getD (f : ℚ → ℚ → ℚ) :
    ∀ (xs ys : List ℚ) (i : ℕ), i < xs.length → i < ys.length →
      (List.zipWith f xs ys).getD i 0 = f (xs.getD i 0) (ys.getD i 0)
  | _ :: _, _ :: _, 0, _, _ => rfl
  | _ :: xs, _ :: ys, i + 1, hx, hy =>
      zipWith_getD f xs ys i (by simpa using hx) (by simpa using hy)

theorem map_getD_lt (g : ℚ → ℚ) :
    ∀ (xs : List ℚ) (i : ℕ), i < xs.length →
      (xs.map g).getD i 0 = g (xs.getD i 0)
  | _ :: _, 0, _ => rfl
  | _ :: xs, i + 1, h => map_getD_lt g xs i (by simpa using h)

theorem range_map_getD (g : ℕ → ℚ) (n i : ℕ) (h : i < n) :
    ((List.range n).map g).getD i 0 = g i := by
  rw [List.getD_eq_getElem?_getD, List.getElem?_map, List.getElem?_range h]
  rfl

theorem getD_mem_of_lt {α : Type} (l : List α) (i : ℕ) (d : α)
    (h : i < l.length) : l.getD i d ∈ l := by
  rw [List.getD_eq_getElem l d h]
  exact List.getElem_mem h

theorem sum_zipWith_sq :
    ∀ (n : ℕ) (xs ys : List ℚ), xs.length = n → ys.length = n →
      (List.zipWith (fun o e => (o - e) * (o - e)) xs ys).sum =
        ∑ k ∈ Finset.range n, (xs.getD k 0 - ys.getD k 0) ^ 2 := by
  intro n
  induction n with
  | zero =>
    intro xs ys hx hy
    rw [List.length_eq_zero] at hx hy
    subst hx; subst hy; simp
  | succ m ih =>
    intro xs ys hx hy
    match xs, ys with
    | x :: xs, y :: ys =>
      have hx' : xs.length = m := by simpa using hx
      have hy' : ys.length = m := by simpa using hy
      rw [Finset.sum_range_succ']
      simp only [List.zipWith_cons_cons, List.sum_cons]
      rw [ih xs ys hx' hy']
      have hsh : ∀ k, ((x :: xs).getD (k + 1) 0 - (y :: ys).getD (k + 1) 0) ^ 2 =
          (xs.getD k 0 - ys.getD k 0) ^ 2 := fun k => rfl
      simp only [hsh, List.getD_cons_zero]
      ring

/-! ## Pointwise descriptions of the update helpers -/

theorem updRowUpto_length (l_rate e : ℚ) (pl_result : List ℚ) (jmax : ℕ) :
    ∀ (row : List ℚ) (j : ℕ),
      (updRowUpto l_rate e pl_result jmax row j).length = row.length
  | [], _ => rfl
  | _ :: xs, j => by
    simp [updRowUpto, updRowUpto_length l_rate e pl_result jmax xs (j + 1)]

theorem updRowUpto_getD (l_rate e : ℚ) (pl_result : List ℚ) (jmax : ℕ) :
    ∀ (row : List ℚ) (j₀ k : ℕ), k < row.length →
      (updRowUpto l_rate e pl_result jmax row j₀).getD k 0 =
        if j₀ + k < jmax then
          row.getD k 0 - l_rate * e * pl_result.getD (j₀ + k) 0
        else row.getD k 0 := by
  intro row
  induction row with
  | nil => intro j₀ k h; simp at h
  | cons x xs ih =>
    intro j₀ k h
    cases k with
    | zero => simp [updRowUpto]
    | succ m =>
      have hm : m < xs.length := by simpa using h
      have := ih (j₀ + 1) m hm
      simp only [updRowUpto, List.getD_cons_succ]
      rw [this]
      have harith : j₀ + 1 + m = j₀ + (m + 1) := by omega
      rw [harith]

theorem updMat_length (l_rate : ℚ) (err pl_result : List ℚ)
    (neurons : List Neuron) :
    ∀ (rows : List (List ℚ)) (i : ℕ),
      (updMat l_rate err pl_result neurons rows i).length = rows.length
  | [], _ => rfl
  | _ :: rows, i => by
    simp [updMat, updMat_length l_rate err pl_result neurons rows (i + 1)]

theorem updMat_getD (l_rate : ℚ) (err pl_result : List ℚ)
    (neurons : List Neuron) :
    ∀ (rows : List (List ℚ)) (i₀ i : ℕ), i < rows.length →
      (updMat l_rate err pl_result neurons rows i₀).getD i [] =
        if i₀ + i < neurons.length then
          updRowUpto l_rate (err.getD (i₀ + i) 0) pl_result
            ((neurons.getD (i₀ + i) dNeuron).weights.length) (rows.getD i []) 0
        else rows.getD i [] := by
  intro rows
  induction rows with
  | nil => intro i₀ i h; simp at h
  | cons row rows ih =>
    intro i₀ i h
    cases i with
    | zero => simp [updMat]
    | succ m =>
      have hm : m < rows.length := by simpa using h
      have := ih (i₀ + 1) m hm
      simp only [updMat, List.getD_cons_succ]
      rw [this]
      have harith : i₀ + 1 + m = i₀ + (m + 1) := by omega
      rw [harith]

theorem updBias_length (l_rate : ℚ) (err : List ℚ) (nCount : ℕ) :
    ∀ (bs : List ℚ) (i : ℕ),
      (updBias l_rate err nCount bs i).length = bs.length
  | [], _ => rfl
  | _ :: bs, i => by
    simp [updBias, updBias_length l_rate err nCount bs (i + 1)]

theorem updBias_getD (l_rate : ℚ) (err : List ℚ) (nCount : ℕ) :
    ∀ (bs : List ℚ) (i₀ i : ℕ), i < bs.length →
      (updBias l_rate err nCount bs i₀).getD i 0 =
        if i₀ + i < nCount then bs.getD i 0 - l_rate * err.getD (i₀ + i) 0
        else bs.getD i 0 := by
  intro bs
  induction bs with
  | nil => intro i₀ i h; simp at h
  | cons b bs ih =>
    intro i₀ i h
    cases i with
    | zero => simp [updBias]
    | succ m =>
      have hm : m < bs.length := by simpa using h
      have := ih (i₀ + 1) m hm
      simp only [updBias, List.getD_cons_succ]
      rw [this]
      have harith : i₀ + 1 + m = i₀ + (m + 1) := by omega
      rw [harith]

/-! ## Success-form lemmas: what a non-panicking call returns -/

theorem foward_mut_eq_some {L : DenseLayer} {inp : List ℚ}
    {p : DenseLayer × List ℚ} (h : L.foward_mut inp = some p) :
    L.foward inp = some p.2 ∧ p.1 = { L with last_result := p.2 } := by
  unfold DenseLayer.foward_mut at h
  cases hf : L.foward inp with
  | none => rw [hf] at h; simp at h
  | some res =>
    rw [hf] at h
    simp only [Option.map_some'] at h
    cases h
    exact ⟨rfl, rfl⟩

theorem backward_output_eq_some {L : DenseLayer} {expected : List ℚ}
    {p : DenseLayer × List ℚ} (h : L.backward_output expected = some p) :
    p.1 = { L with error := p.2 } := by
  unfold DenseLayer.backward_output at h
  split at h
  · simp only [Option.some.injEq] at h
    cases h
    rfl
  · simp at h

theorem backward_eq_some {L : DenseLayer} {nl_ws : List (List ℚ)}
    {nl_deltas : List ℚ} {p : DenseLayer × List ℚ}
    (h : L.backward nl_ws nl_deltas = some p) :
    p.1 = { L with error := p.2 } := by
  unfold DenseLayer.backward at h
  split at h
  · simp at h
  · dsimp only at h
    split at h
    · simp only [Option.some.injEq] at h
      cases h
      rfl
    · simp at h

theorem update_layer_eq_some {L : DenseLayer} {pl_result : List ℚ}
    {l_rate : ℚ} {L' : DenseLayer} (h : L.update_layer pl_result l_rate = some L') :
    L' = { L with
      weights_mat := updMat l_rate L.error pl_result L.neurons L.weights_mat 0,
      bias_vec := updBias l_rate L.error L.neurons.length L.bias_vec 0 } := by
  unfold DenseLayer.update_layer at h
  split at h
  · simp only [Option.some.injEq] at h
    exact h.symm
  · simp at h

/-! ## Frame lemmas for the three phases of `learn` -/

theorem fowardMutLayers_map_pres {β : Type} (f : DenseLayer → β)
    (hf : ∀ (L : DenseLayer) (r : List ℚ), f { L with last_result := r } = f L) :
    ∀ (ls : List DenseLayer) (inp : List ℚ) (p : List DenseLayer × List ℚ),
      fowardMutLayers ls inp = some p → p.1.map f = ls.map f := by
  intro ls
  induction ls with
  | nil =>
    intro inp p h
    simp only [fowardMutLayers, Option.some.injEq] at h
    cases h
    rfl
  | cons l ls ih =>
    intro inp p h
    simp only [fowardMutLayers] at h
    cases hfm : l.foward_mut inp with
    | none => rw [hfm] at h; simp at h
    | some q =>
      rw [hfm] at h
      simp only [Option.some_bind] at h
      cases hrec : fowardMutLayers ls q.2 with
      | none => rw [hrec] at h; simp at h
      | some r =>
        rw [hrec] at h
        simp only [Option.some_bind, Option.some.injEq] at h
        cases h
        have hq : q.1 = { l with last_result := q.2 } := (foward_mut_eq_some hfm).2
        simp only [List.map_cons]
        rw [ih q.2 r hrec, hq, hf]

theorem backwardRev_map_pres {β : Type} (f : DenseLayer → β)
    (hf : ∀ (L : DenseLayer) (e : List ℚ), f { L with error := e } = f L) :
    ∀ (ls : List DenseLayer) (ws : List (List ℚ)) (ds : List ℚ)
      (ls' : List DenseLayer),
      backwardRev ls ws ds = some ls' → ls'.map f = ls.map f := by
  intro ls
  induction ls with
  | nil =>
    intro ws ds ls' h
    simp only [backwardRev, Option.some.injEq] at h
    cases h
    rfl
  | cons l ls ih =>
    intro ws ds ls' h
    simp only [backwardRev] at h
    cases hb : l.backward ws ds with
    | none => rw [hb] at h; simp at h
    | some p =>
      rw [hb] at h
      simp only [Option.some_bind] at h
      cases hrec : backwardRev ls p.1.get_weights p.2 with
      | none => rw [hrec] at h; simp at h
      | some rest' =>
        rw [hrec] at h
        simp only [Option.some_bind, Option.some.injEq] at h
        cases h
        have hp : p.1 = { l with error := p.2 } := backward_eq_some hb
        simp only [List.map_cons]
        rw [ih p.1.get_weights p.2 rest' hrec, hp, hf]

theorem backward_map_pres {β : Type} (f : DenseLayer → β)
    (hf : ∀ (L : DenseLayer) (e : List ℚ), f { L with error := e } = f L)
    {net : ArtificialNetwork} {expected : List ℚ} {net2 : ArtificialNetwork}
    (h : net.backward expected = some net2) :
    net2.layers.map f = net.layers.map f := by
  unfold ArtificialNetwork.backward at h
  cases hrev : net.layers.reverse with
  | nil => rw [hrev] at h; simp at h
  | cons lastL restRev =>
    rw [hrev] at h
    dsimp only at h
    cases hbo : lastL.backward_output expected with
    | none => rw [hbo] at h; simp at h
    | some p =>
      rw [hbo] at h
      simp only [Option.some_bind] at h
      cases hbr : backwardRev restRev p.1.get_weights p.2 with
      | none => rw [hbr] at h; simp at h
      | some rest' =>
        rw [hbr] at h
        simp only [Option.some_bind, Option.some.injEq] at h
        cases h
        have hlayers : net.layers = (lastL :: restRev).reverse := by
          rw [← hrev, List.reverse_reverse]
        have hp : p.1 = { lastL with error := p.2 } := backward_output_eq_some hbo
        have hrest : rest'.map f = restRev.map f :=
          backwardRev_map_pres f hf restRev p.1.get_weights p.2 rest' hbr
        simp only [hlayers, List.map_reverse, List.map_cons]
        rw [hrest, hp, hf]

theorem updateLoopAux_spec (l_rate : ℚ) :
    ∀ (ls : List DenseLayer) (prev : DenseLayer) (ls' : List DenseLayer),
      updateLoopAux l_rate prev ls = some ls' →
      ls'.length = ls.length ∧
      ∀ i, i < ls.length →
        (ls.getD i dfl).update_layer
            ((if i = 0 then prev else ls'.getD (i - 1) dfl).get_last_result)
            l_rate = some (ls'.getD i dfl) := by
  intro ls
  induction ls with
  | nil =>
    intro prev ls' h
    simp only [updateLoopAux, Option.some.injEq] at h
    cases h
    exact ⟨rfl, fun i hi => by simp at hi⟩
  | cons l ls ih =>
    intro prev ls' h
    simp only [updateLoopAux] at h
    cases hu : l.update_layer prev.get_last_result l_rate with
    | none => rw [hu] at h; simp at h
    | some l' =>
      rw [hu] at h
      simp only [Option.some_bind] at h
      cases hrec : updateLoopAux l_rate l' ls with
      | none => rw [hrec] at h; simp at h
      | some rest' =>
        rw [hrec] at h
        simp only [Option.some_bind, Option.some.injEq] at h
        cases h
        obtain ⟨hlen, hpt⟩ := ih l' rest' hrec
        refine ⟨by simp [hlen], fun i hi => ?_⟩
        cases i with
        | zero => simpa using hu
        | succ m =>
          have hm : m < ls.length := by simpa using hi
          have := hpt m hm
          cases m with
          | zero => simpa using this
          | succ k => simpa using this

theorem updateLoop_spec {layers : List DenseLayer} {l_rate : ℚ}
    {ls' : List DenseLayer} (h : updateLoop layers l_rate = some ls') :
    ls'.length = layers.length ∧
    (layers ≠ [] → ls'.getD 0 dfl = layers.getD 0 dfl) ∧
    ∀ i, 1 ≤ i → i < layers.length →
      (layers.getD i dfl).update_layer
          ((ls'.getD (i - 1) dfl).get_last_result) l_rate =
        some (ls'.getD i dfl) := by
  unfold updateLoop at h
  cases layers with
  | nil =>
    simp only [Option.some.injEq] at h
    cases h
    exact ⟨rfl, fun hc => absurd rfl hc, fun i h1 h2 => by simp at h2⟩
  | cons l0 rest =>
    dsimp only at h
    cases haux : updateLoopAux l_rate l0 rest with
    | none => rw [haux] at h; simp at h
    | some rest' =>
      rw [haux] at h
      simp only [Option.some_bind, Option.some.injEq] at h
      cases h
      obtain ⟨hlen, hpt⟩ := updateLoopAux_spec l_rate rest l0 rest' haux
      refine ⟨by simp [hlen], fun _ => rfl, fun i h1 h2 => ?_⟩
      cases i with
      | zero => omega
      | succ m =>
        have hm : m < rest.length := by simpa using h2
        have := hpt m hm
        cases m with
        | zero => simpa using this
        | succ k => simpa using this

/-! ## Forward chaining (claim C1) -/

theorem fowardLayers_append :
    ∀ (ls₁ ls₂ : List DenseLayer) (xs : List ℚ),
      fowardLayers (ls₁ ++ ls₂) xs =
        (fowardLayers ls₁ xs).bind fun ys => fowardLayers ls₂ ys := by
  intro ls₁
  induction ls₁ with
  | nil => intro ls₂ xs; simp [fowardLayers]
  | cons l ls ih =>
    intro ls₂ xs
    simp only [List.cons_append, fowardLayers]
    cases l.foward xs with
    | none => simp
    | some ys => simp [ih]

/-- Claim C1, counterexample: on the empty network (zero layers) `foward`
does NOT fail — the layer loop body never runs, so the call returns the
input vector as a result (`some [5]`, not the panic value `none`). -/
theorem c1_empty_forward_returns_input :
    ArtificialNetwork.foward ⟨[]⟩ [5] = some [5] ∧
    ArtificialNetwork.foward ⟨[]⟩ [5] ≠ none := by
  constructor
  · rfl
  · simp [ArtificialNetwork.foward, fowardLayers]

/-- Claim C1, amended: `foward` on the empty network returns the inputs
unchanged (it cannot fail), and in general `foward` chains `layer.foward`
across the layer sequence in order — splitting the sequence anywhere splits
the computation — while mutating nothing (`foward` consumes `&self`;
in the embedding it returns no network). -/
theorem c1_forward_chains_in_order :
    (∀ xs : List ℚ, ArtificialNetwork.foward ⟨[]⟩ xs = some xs) ∧
    ∀ (ls₁ ls₂ : List DenseLayer) (xs : List ℚ),
      ArtificialNetwork.foward ⟨ls₁ ++ ls₂⟩ xs =
        (ArtificialNetwork.foward ⟨ls₁⟩ xs).bind fun ys =>
          ArtificialNetwork.foward ⟨ls₂⟩ ys :=
  ⟨fun _ => rfl, fun ls₁ ls₂ xs => fowardLayers_append ls₁ ls₂ xs⟩

/-! ## The backward delta (claims C3, C4) -/

/-- Claim C3: the code does NOT compute the transpose product
`nl_ws^T * nl_deltas` claimed by the spec.  On the 2-unit layer `L3ex`
(derivative constantly 1) with `nl_ws = [[0,1],[0,0]]` and
`nl_deltas = [0,1]`, `backward` returns `[1, 0]`, while the transpose
formula of the claim gives `[0, 0]`: `DMatrix::from_vec` fills
column-major, so the row-major flattening of `nl_ws` is reshaped, not
transposed. -/
theorem c3_backward_is_not_transpose_product :
    (DenseLayer.backward L3ex [[0, 1], [0, 0]] [0, 1]).map (fun p => p.2) =
      some [1, 0] ∧
    specBackwardDelta L3ex [[0, 1], [0, 0]] [0, 1] = [0, 0] ∧
    (([1, 0] : List ℚ) ≠ ([0, 0] : List ℚ)) := by
  refine ⟨?_, ?_, by norm_num⟩
  · norm_num [DenseLayer.backward, dot, L3ex, exAct, List.range_succ]
  · norm_num [specBackwardDelta, L3ex, exAct, List.range_succ]

/-- Claim C4: on a terminal layer with cached `last_result`,
`backward_output expected` returns — and caches in `error` — the vector
whose component `i` is
`(expected[i] - last_result[i])^2 * d(last_result[i])`
(the elementwise SQUARED residual times the derivative evaluated on the
cached activated output). -/
theorem c4_backward_output_squared_residual (L : DenseLayer)
    (expected : List ℚ) (hlr : L.last_result.length = L.outFmt)
    (hexp : expected.length = L.outFmt) :
    L.backward_output expected =
      some ({ L with error := specOutputDelta L expected },
        specOutputDelta L expected) := by
  have hkey : List.zipWith (· * ·)
      (List.zipWith (· * ·) (List.zipWith (· - ·) expected L.last_result)
        (List.zipWith (· - ·) expected L.last_result))
      (L.last_result.map fun o => L.activation.d o) =
      specOutputDelta L expected := by
    apply List.ext_getElem
    · simp [specOutputDelta, hexp, hlr]
    · intro i h1 h2
      have hi : i < L.outFmt := by
        simpa [specOutputDelta] using h2
      have hbe : i < expected.length := by omega
      have hblr : i < L.last_result.length := by omega
      have hb1 : i < (List.zipWith (· - ·) expected L.last_result).length := by
        simp only [List.length_zipWith]
        omega
      have hb2 : i < (List.zipWith (· * ·)
          (List.zipWith (· - ·) expected L.last_result)
          (List.zipWith (· - ·) expected L.last_result)).length := by
        simp only [List.length_zipWith]
        omega
      have hbm : i < (L.last_result.map fun o => L.activation.d o).length := by
        simpa using hblr
      rw [← List.getD_eq_getElem _ 0 h1, ← List.getD_eq_getElem _ 0 h2]
      rw [zipWith_getD _ _ _ _ hb2 hbm]
      rw [zipWith_getD _ _ _ _ hb1 hb1]
      rw [zipWith_getD _ _ _ _ hbe hblr]
      rw [map_getD_lt _ _ _ hblr]
      unfold specOutputDelta
      rw [range_map_getD _ _ _ hi]
      ring
  unfold DenseLayer.backward_output
  rw [if_pos hexp]
  dsimp only
  rw [hkey]

/-- Claim C4 witness: the terminal layer `LexC7` (cached output `[0]`) with
`expected = [3]`. -/
theorem c4_witness :
    LexC7.backward_output [3] =
      some ({ LexC7 with error := specOutputDelta LexC7 [3] },
        specOutputDelta LexC7 [3]) :=
  c4_backward_output_squared_residual LexC7 [3]
    (by norm_num [LexC7]) (by norm_num [LexC7])

/-! ## The weight update (claims C6, C7) -/

/-- Claim C6: on a well-formed layer with an input-width `pl_result`,
`update_layer` succeeds and performs, for every unit `i` and input index
`j`: `weight[i][j] -= l_rate * error[i] * pl_result[j]` and
`bias[i] -= l_rate * error[i]`, in the `weights_mat`/`bias_vec` storage
that `foward` reads. -/
theorem c6_update_layer_gradient_step (L : DenseLayer) (pl_result : List ℚ)
    (l_rate : ℚ) (hWF : L.WF) (hpl : pl_result.length = L.inFmt) :
    L.update_layer pl_result l_rate =
      some { L with
        weights_mat := updMat l_rate L.error pl_result L.neurons L.weights_mat 0,
        bias_vec := updBias l_rate L.error L.neurons.length L.bias_vec 0 } ∧
    (∀ i, i < L.outFmt → ∀ j, j < L.inFmt →
      ((updMat l_rate L.error pl_result L.neurons L.weights_mat 0).getD i
          []).getD j 0 =
        (L.weights_mat.getD i []).getD j 0 -
          l_rate * L.error.getD i 0 * pl_result.getD j 0) ∧
    (∀ i, i < L.outFmt →
      (updBias l_rate L.error L.neurons.length L.bias_vec 0).getD i 0 =
        L.bias_vec.getD i 0 - l_rate * L.error.getD i 0) := by
  obtain ⟨hn, hw, hwm, hrows, hb, hlr2, herr⟩ := hWF
  refine ⟨?_, ?_, ?_⟩
  · unfold DenseLayer.update_layer
    rw [if_pos]
    intro n hn'
    exact le_of_eq (by rw [hw n hn', hpl])
  · intro i hi j hj
    have hiw : i < L.weights_mat.length := by omega
    rw [updMat_getD _ _ _ _ _ 0 i hiw]
    have hin : 0 + i < L.neurons.length := by omega
    rw [if_pos hin]
    have hjmax : (L.neurons.getD (0 + i) dNeuron).weights.length = L.inFmt := by
      apply hw
      apply getD_mem_of_lt
      omega
    have hrow : (L.weights_mat.getD i []).length = L.inFmt := by
      apply hrows
      apply getD_mem_of_lt
      omega
    have hjr : j < (L.weights_mat.getD i []).length := by omega
    rw [updRowUpto_getD _ _ _ _ _ 0 j hjr]
    rw [if_pos (by rw [hjmax]; omega)]
    norm_num
  · intro i hi
    have hib : i < L.bias_vec.length := by omega
    rw [updBias_getD _ _ _ _ 0 i hib]
    rw [if_pos (by omega)]
    norm_num

/-- Claim C6 witness: the layer `LexC7` (error cache `[2]`), previous
output `[7]`, learning rate `1`, at unit `0`, input index `0`. -/
theorem c6_witness :
    LexC7.update_layer [7] 1 =
      some { LexC7 with
        weights_mat := updMat 1 LexC7.error [7] LexC7.neurons LexC7.weights_mat 0,
        bias_vec := updBias 1 LexC7.error LexC7.neurons.length LexC7.bias_vec 0 } ∧
    ((updMat 1 LexC7.error [7] LexC7.neurons LexC7.weights_mat 0).getD 0
        []).getD 0 0 =
      (LexC7.weights_mat.getD 0 []).getD 0 0 -
        1 * LexC7.error.getD 0 0 * ([7] : List ℚ).getD 0 0 ∧
    (updBias 1 LexC7.error LexC7.neurons.length LexC7.bias_vec 0).getD 0 0 =
      LexC7.bias_vec.getD 0 0 - 1 * LexC7.error.getD 0 0 := by
  obtain ⟨h1, h2, h3⟩ := c6_update_layer_gradient_step LexC7 [7] 1
    (by decide) (by norm_num [LexC7])
  exact ⟨h1, h2 0 (by norm_num [LexC7]) 0 (by norm_num [LexC7]),
    h3 0 (by norm_num [LexC7])⟩

/-- Claim C7: `update_layer` mutates only the derived `weights_mat` and
`bias_vec`: the owned neurons (hence `get_weights`, the snapshot the
network's backward pass reads), the caches, the activation and the formats
are all unchanged. -/
theorem c7_update_preserves_neuron_weights (L : DenseLayer)
    (pl_result : List ℚ) (l_rate : ℚ) (L' : DenseLayer)
    (h : L.update_layer pl_result l_rate = some L') :
    L'.get_weights = L.get_weights ∧ L'.neurons = L.neurons ∧
    L'.last_result = L.last_result ∧ L'.error = L.error ∧
    L'.activation = L.activation ∧ L'.inFmt = L.inFmt ∧
    L'.outFmt = L.outFmt := by
  have heq := update_layer_eq_some h
  subst heq
  exact ⟨rfl, rfl, rfl, rfl, rfl, rfl, rfl⟩

/-- Claim C7 witness: `LexC7.update_layer [7] 1` returns `LexC7'`
(weights `[[5]] ↦ [[-9]]`, bias `[3] ↦ [1]`) and every listed field is
preserved. -/
theorem c7_witness :
    LexC7'.get_weights = LexC7.get_weights ∧ LexC7'.neurons = LexC7.neurons ∧
    LexC7'.last_result = LexC7.last_result ∧ LexC7'.error = LexC7.error ∧
    LexC7'.activation = LexC7.activation ∧ LexC7'.inFmt = LexC7.inFmt ∧
    LexC7'.outFmt = LexC7.outFmt :=
  c7_update_preserves_neuron_weights LexC7 [7] 1 LexC7'
    (by norm_num [DenseLayer.update_layer, updMat, updRowUpto, updBias,
      LexC7, LexC7', exAct, dNeuron])

/-! ## Layer insertion (claim C8) -/

/-- Claim C8: `add_layer` appends with no check when the network is empty;
on a non-empty network it appends exactly when the new layer's input width
equals the last layer's output width and fails fatally (without appending)
otherwise. -/
theorem c8_add_layer_validates (net : ArtificialNetwork) (layer : DenseLayer) :
    (net.layers = [] → net.add_layer layer = some ⟨net.layers ++ [layer]⟩) ∧
    ∀ lastL, net.layers.getLast? = some lastL →
      (lastL.outFmt = layer.inFmt →
        net.add_layer layer = some ⟨net.layers ++ [layer]⟩) ∧
      (lastL.outFmt ≠ layer.inFmt → net.add_layer layer = none) := by
  refine ⟨fun h => ?_, fun lastL hl => ⟨fun heq => ?_, fun hne => ?_⟩⟩
  · have hv : net.verify_new_layer layer := by
      unfold ArtificialNetwork.verify_new_layer
      rw [h]
      trivial
    simp [ArtificialNetwork.add_layer, hv]
  · have hv : net.verify_new_layer layer := by
      unfold ArtificialNetwork.verify_new_layer
      rw [hl]
      exact heq
    simp [ArtificialNetwork.add_layer, hv]
  · have hv : ¬ net.verify_new_layer layer := by
      unfold ArtificialNetwork.verify_new_layer
      rw [hl]
      exact hne
    simp [ArtificialNetwork.add_layer, hv]

/-- Claim C8 witness: appending the first layer needs no check; a matching
`1 → 1` layer is appended after `L1ex`, a `2 → 1` layer is rejected. -/
theorem c8_witness :
    ArtificialNetwork.add_layer ⟨[]⟩ L1ex = some ⟨[] ++ [L1ex]⟩ ∧
    ArtificialNetwork.add_layer ⟨[L1ex]⟩ L1ex = some ⟨[L1ex] ++ [L1ex]⟩ ∧
    ArtificialNetwork.add_layer ⟨[L1ex]⟩ LbadEx = none := by
  refine ⟨(c8_add_layer_validates ⟨[]⟩ L1ex).1 rfl, ?_, ?_⟩
  · exact ((c8_add_layer_validates ⟨[L1ex]⟩ L1ex).2 L1ex rfl).1 (by decide)
  · exact ((c8_add_layer_validates ⟨[L1ex]⟩ LbadEx).2 L1ex rfl).2 (by decide)

/-! ## Loss (claim C9) -/

theorem foward_clearCaches (L : DenseLayer) (inp : List ℚ) :
    (clearCaches L).foward inp = L.foward inp := rfl

theorem fowardLayers_clearCaches :
    ∀ (ls : List DenseLayer) (inp : List ℚ),
      fowardLayers (ls.map clearCaches) inp = fowardLayers ls inp := by
  intro ls
  induction ls with
  | nil => intro inp; rfl
  | cons l ls ih =>
    intro inp
    simp only [List.map_cons, fowardLayers, foward_clearCaches]
    cases l.foward inp with
    | none => rfl
    | some ys => simp [ih]

/-- Claim C9: on a non-empty network, with `expected` of the terminal
output width and a succeeding forward pass of that width, `get_loss` is the
sum over all output components `k` of
`(foward(input)[k] - expected[k])^2`; it is computed from a fresh `foward`
pass that touches no cache — resetting every layer's `last_result`/`error`
caches leaves the result unchanged (and `get_loss`, like `foward`, takes
`&self`: no mutation in the embedding either). -/
theorem c9_get_loss_sum_of_squared_differences (net : ArtificialNetwork)
    (input expected out : List ℚ) (lastL : DenseLayer)
    (hlast : net.layers.getLast? = some lastL)
    (hfwd : net.foward input = some out)
    (hout : out.length = lastL.outFmt)
    (hexp : expected.length = lastL.outFmt) :
    net.get_loss input expected =
      some (∑ k ∈ Finset.range lastL.outFmt,
        (out.getD k 0 - expected.getD k 0) ^ 2) ∧
    ArtificialNetwork.get_loss ⟨net.layers.map clearCaches⟩ input expected =
      net.get_loss input expected := by
  constructor
  · unfold ArtificialNetwork.get_loss
    rw [hlast]
    dsimp only
    rw [hfwd]
    simp only [Option.some_bind]
    rw [if_pos ⟨hout, hexp⟩]
    rw [sum_zipWith_sq lastL.outFmt out expected hout hexp]
  · unfold ArtificialNetwork.get_loss
    rw [show (ArtificialNetwork.mk (net.layers.map clearCaches)).layers =
      net.layers.map clearCaches from rfl, List.getLast?_map, hlast]
    simp only [Option.map_some']
    have hfw : (ArtificialNetwork.mk (net.layers.map clearCaches)).foward input =
        net.foward input := fowardLayers_clearCaches net.layers input
    rw [hfw]
    rfl

/-- Claim C9 witness: the one-layer network `exNet1` on input `[1]` with
target `[0]` (forward output `[1]`). -/
theorem c9_witness :
    ArtificialNetwork.get_loss exNet1 [1] [0] =
      some (∑ k ∈ Finset.range L1ex.outFmt,
        (([1] : List ℚ).getD k 0 - ([0] : List ℚ).getD k 0) ^ 2) ∧
    ArtificialNetwork.get_loss ⟨exNet1.layers.map clearCaches⟩ [1] [0] =
      ArtificialNetwork.get_loss exNet1 [1] [0] :=
  c9_get_loss_sum_of_squared_differences exNet1 [1] [0] [1] L1ex rfl
    (by norm_num [ArtificialNetwork.foward, fowardLayers, DenseLayer.foward,
      dot, exNet1, L1ex, exAct])
    (by norm_num [L1ex]) (by norm_num [L1ex])

/-! ## `train` with zero epochs (claim C10) -/

/-- Claim C10: on a non-empty dataset, `train` with `epochs = 0` still
performs exactly one `learn` step, on sample `0` (whose mutated network and
loss it returns), and returns `0` as the final loss regardless of the
network or the data. -/
theorem c10_train_zero_epochs (net : ArtificialNetwork)
    (inputs expected : List (List ℚ)) (l_rate : ℚ)
    (hI : inputs ≠ []) (hE : expected ≠ []) :
    net.train inputs expected l_rate 0 =
      (net.learn (inputs.getD 0 []) (expected.getD 0 []) l_rate).map fun p =>
        (p.1, p.2, 0) := by
  unfold ArtificialNetwork.train
  rw [if_pos ⟨hI, hE⟩]
  cases h : net.learn (inputs.getD 0 []) (expected.getD 0 []) l_rate with
  | none => simp
  | some p => simp [trainLoop]

/-- Claim C10 witness: `exNet1` trained on the one-sample dataset
`([[1]], [[0]])` for zero epochs. -/
theorem c10_witness :
    ArtificialNetwork.train exNet1 [[1]] [[0]] 1 0 =
      (ArtificialNetwork.learn exNet1 (([[1]] : List (List ℚ)).getD 0 [])
          (([[0]] : List (List ℚ)).getD 0 []) 1).map fun p =>
        (p.1, p.2, 0) :=
  c10_train_zero_epochs exNet1 [[1]] [[0]] 1 (by simp) (by simp)

/-! ## `learn` and the first-layer frame property (claim C2) -/

theorem learn_destruct {net : ArtificialNetwork} {inp expected : List ℚ}
    {l_rate : ℚ} {net' : ArtificialNetwork} {loss : ℚ}
    (h : net.learn inp expected l_rate = some (net', loss)) :
    ∃ (q : List DenseLayer × List ℚ) (net2 : ArtificialNetwork)
      (ls3 : List DenseLayer),
      fowardMutLayers net.layers inp = some q ∧
      ArtificialNetwork.backward ⟨q.1⟩ expected = some net2 ∧
      updateLoop net2.layers l_rate = some ls3 ∧
      net' = ⟨ls3⟩ ∧
      ArtificialNetwork.get_loss ⟨ls3⟩ inp expected = some loss := by
  unfold ArtificialNetwork.learn ArtificialNetwork.foward_mut at h
  cases hfm : fowardMutLayers net.layers inp with
  | none => rw [hfm] at h; simp at h
  | some q =>
    rw [hfm] at h
    simp only [Option.map_some', Option.some_bind] at h
    cases hbw : ArtificialNetwork.backward ⟨q.1⟩ expected with
    | none => rw [hbw] at h; simp at h
    | some net2 =>
      rw [hbw] at h
      simp only [Option.some_bind] at h
      cases hul : updateLoop net2.layers l_rate with
      | none => rw [hul] at h; simp at h
      | some ls3 =>
        rw [hul] at h
        simp only [Option.some_bind] at h
        cases hgl : ArtificialNetwork.get_loss ⟨ls3⟩ inp expected with
        | none => rw [hgl] at h; simp at h
        | some l =>
          rw [hgl] at h
          simp only [Option.map_some', Option.some.injEq, Prod.mk.injEq] at h
          obtain ⟨hn, hl⟩ := h
          exact ⟨q, net2, ls3, rfl, hbw, hul, hn.symm, by rw [hgl, hl]⟩

/-- Claim C2: after a completed `learn` call on a network with at least two
layers, the first layer's `weights_mat` (and `bias_vec`) are unchanged —
the update loop iterates only over indices `1..last` — while every
subsequent layer's weight matrix equals the gradient update (`updMat`) of
its pre-call weight matrix, using that layer's freshly cached delta and the
previous layer's freshly cached output. -/
theorem c2_first_layer_weights_frozen (net : ArtificialNetwork)
    (inp expected : List ℚ) (l_rate : ℚ) (net' : ArtificialNetwork) (loss : ℚ)
    (h2 : 2 ≤ net.layers.length)
    (h : net.learn inp expected l_rate = some (net', loss)) :
    (net'.layers.getD 0 dfl).weights_mat = (net.layers.getD 0 dfl).weights_mat ∧
    (net'.layers.getD 0 dfl).bias_vec = (net.layers.getD 0 dfl).bias_vec ∧
    ∀ i, 1 ≤ i → i < net.layers.length →
      (net'.layers.getD i dfl).weights_mat =
        updMat l_rate (net'.layers.getD i dfl).error
          ((net'.layers.getD (i - 1) dfl).get_last_result)
          (net.layers.getD i dfl).neurons
          (net.layers.getD i dfl).weights_mat 0 := by
  obtain ⟨q, net2, ls3, hfm, hbw, hul, hnet', _⟩ := learn_destruct h
  have hW1 : q.1.map DenseLayer.weights_mat =
      net.layers.map DenseLayer.weights_mat :=
    fowardMutLayers_map_pres DenseLayer.weights_mat (fun _ _ => rfl)
      net.layers inp q hfm
  have hW2 : net2.layers.map DenseLayer.weights_mat =
      q.1.map DenseLayer.weights_mat :=
    backward_map_pres DenseLayer.weights_mat (fun _ _ => rfl) hbw
  have hW : net2.layers.map DenseLayer.weights_mat =
      net.layers.map DenseLayer.weights_mat := hW2.trans hW1
  have hB1 : q.1.map DenseLayer.bias_vec = net.layers.map DenseLayer.bias_vec :=
    fowardMutLayers_map_pres DenseLayer.bias_vec (fun _ _ => rfl)
      net.layers inp q hfm
  have hB2 : net2.layers.map DenseLayer.bias_vec =
      q.1.map DenseLayer.bias_vec :=
    backward_map_pres DenseLayer.bias_vec (fun _ _ => rfl) hbw
  have hB : net2.layers.map DenseLayer.bias_vec =
      net.layers.map DenseLayer.bias_vec := hB2.trans hB1
  have hNe1 : q.1.map DenseLayer.neurons = net.layers.map DenseLayer.neurons :=
    fowardMutLayers_map_pres DenseLayer.neurons (fun _ _ => rfl)
      net.layers inp q hfm
  have hNe2 : net2.layers.map DenseLayer.neurons =
      q.1.map DenseLayer.neurons :=
    backward_map_pres DenseLayer.neurons (fun _ _ => rfl) hbw
  have hNe : net2.layers.map DenseLayer.neurons =
      net.layers.map DenseLayer.neurons := hNe2.trans hNe1
  have hlen2 : net2.layers.length = net.layers.length := map_eq_imp_length hW
  obtain ⟨hlen3, hhead, hupd⟩ := updateLoop_spec hul
  have hne2 : net2.layers ≠ [] := by
    intro hc
    rw [hc] at hlen2
    simp at hlen2
    omega
  subst hnet'
  refine ⟨?_, ?_, ?_⟩
  · show (ls3.getD 0 dfl).weights_mat = (net.layers.getD 0 dfl).weights_mat
    rw [hhead hne2]
    exact map_eq_imp_getD hW 0 dfl
  · show (ls3.getD 0 dfl).bias_vec = (net.layers.getD 0 dfl).bias_vec
    rw [hhead hne2]
    exact map_eq_imp_getD hB 0 dfl
  · intro i h1 hi
    have hi2 : i < net2.layers.length := by omega
    have hstep := hupd i h1 hi2
    have heqi := update_layer_eq_some hstep
    show (ls3.getD i dfl).weights_mat = _
    rw [heqi]
    dsimp only
    rw [map_eq_imp_getD hNe i dfl, map_eq_imp_getD hW i dfl]

/-- Claim C2 witness: one `learn [1] [0]` step at rate `1` on the
`1 → 1 → 1` network `exNet2` ends in `⟨[l0f, l1f]⟩` with loss `1`: layer
`0` keeps weights `[[1]]`, layer `1`'s weights are the `updMat` gradient
update of its old `[[1]]`. -/
theorem c2_witness :
    ((ArtificialNetwork.mk [l0f, l1f]).layers.getD 0 dfl).weights_mat =
      (exNet2.layers.getD 0 dfl).weights_mat ∧
    ((ArtificialNetwork.mk [l0f, l1f]).layers.getD 1 dfl).weights_mat =
      updMat 1 ((ArtificialNetwork.mk [l0f, l1f]).layers.getD 1 dfl).error
        (((ArtificialNetwork.mk [l0f, l1f]).layers.getD 0 dfl).get_last_result)
        (exNet2.layers.getD 1 dfl).neurons
        (exNet2.layers.getD 1 dfl).weights_mat 0 := by
  obtain ⟨h1, _, h3⟩ := c2_first_layer_weights_frozen exNet2 [1] [0] 1
    ⟨[l0f, l1f]⟩ 1 (by norm_num [exNet2])
    (by norm_num [ArtificialNetwork.learn, ArtificialNetwork.foward_mut,
      fowardMutLayers, DenseLayer.foward_mut, DenseLayer.foward, dot,
      ArtificialNetwork.backward, DenseLayer.backward_output,
      DenseLayer.backward, backwardRev, DenseLayer.get_weights, updateLoop,
      updateLoopAux, DenseLayer.update_layer, DenseLayer.get_last_result,
      updMat, updRowUpto, updBias, ArtificialNetwork.get_loss,
      ArtificialNetwork.foward, fowardLayers, DenseLayer.format, exNet2,
      L1ex, exAct, l0f, l1f, dNeuron, List.range_succ, List.range_zero])
  exact ⟨h1, h3 1 (by omega) (by norm_num [exNet2])⟩

/-! ## The training loop (claim C5) -/

theorem specNetAfterStep_none (inputs expected : List (List ℚ)) (l_rate : ℚ)
    (n1 : ArtificialNetwork) (k : ℕ)
    (h : specNetAfterStep inputs expected l_rate n1 k = none) :
    ∀ j, specNetAfterStep inputs expected l_rate n1 (k + j) = none := by
  intro j
  induction j with
  | zero => exact h
  | succ m ih =>
    show specNetAfterStep inputs expected l_rate n1 (k + m + 1) = none
    simp [specNetAfterStep, ih]

theorem trainLoop_eq_spec (inputs expected : List (List ℚ)) (l_rate : ℚ)
    (n1 : ArtificialNetwork) (hN : inputs.length ≠ 0)
    (hlen : inputs.length ≤ expected.length) :
    ∀ (r i : ℕ) (n : ArtificialNetwork) (l₀ : ℚ),
      specNetAfterStep inputs expected l_rate n1 i = some n →
      trainLoop inputs expected l_rate (r + 1) n i l₀ =
        (specNetAfterStep inputs expected l_rate n1 (i + (r + 1))).bind fun nf =>
          (specStepLoss inputs expected l_rate n1 (i + r)).map fun lf =>
            (nf, lf) := by
  intro r
  induction r with
  | zero =>
    intro i n l₀ hspec
    have hguard : inputs.length ≠ 0 ∧ i % inputs.length < expected.length :=
      ⟨hN, lt_of_lt_of_le (Nat.mod_lt i (Nat.pos_of_ne_zero hN)) hlen⟩
    have hs1 : specNetAfterStep inputs expected l_rate n1 (i + 1) =
        (n.learn (inputs.getD (i % inputs.length) [])
          (expected.getD (i % inputs.length) []) l_rate).map fun p => p.1 := by
      simp only [specNetAfterStep, hspec, Option.some_bind]
    have hsl : specStepLoss inputs expected l_rate n1 i =
        (n.learn (inputs.getD (i % inputs.length) [])
          (expected.getD (i % inputs.length) []) l_rate).map fun p => p.2 := by
      unfold specStepLoss
      simp only [hspec, Option.some_bind]
    simp only [trainLoop]
    rw [if_pos hguard]
    rw [show i + (0 + 1) = i + 1 from by omega, show i + 0 = i from by omega]
    rw [hs1, hsl]
    cases hlearn : n.learn (inputs.getD (i % inputs.length) [])
        (expected.getD (i % inputs.length) []) l_rate with
    | none => simp
    | some p => simp [trainLoop]
  | succ m ih =>
    intro i n l₀ hspec
    have hguard : inputs.length ≠ 0 ∧ i % inputs.length < expected.length :=
      ⟨hN, lt_of_lt_of_le (Nat.mod_lt i (Nat.pos_of_ne_zero hN)) hlen⟩
    have hs1 : specNetAfterStep inputs expected l_rate n1 (i + 1) =
        (n.learn (inputs.getD (i % inputs.length) [])
          (expected.getD (i % inputs.length) []) l_rate).map fun p => p.1 := by
      simp only [specNetAfterStep, hspec, Option.some_bind]
    have hunf : trainLoop inputs expected l_rate (m + 1 + 1) n i l₀ =
        if inputs.length ≠ 0 ∧ i % inputs.length < expected.length then
          (n.learn (inputs.getD (i % inputs.length) [])
            (expected.getD (i % inputs.length) []) l_rate).bind fun p =>
            trainLoop inputs expected l_rate (m + 1) p.1 (i + 1) p.2
        else none := rfl
    rw [hunf, if_pos hguard]
    cases hlearn : n.learn (inputs.getD (i % inputs.length) [])
        (expected.getD (i % inputs.length) []) l_rate with
    | none =>
      have hnone1 : specNetAfterStep inputs expected l_rate n1 (i + 1) = none := by
        rw [hs1, hlearn]
        rfl
      have hnone : specNetAfterStep inputs expected l_rate n1
          (i + (m + 1 + 1)) = none := by
        have := specNetAfterStep_none inputs expected l_rate n1 (i + 1)
          hnone1 (m + 1)
        rw [show i + 1 + (m + 1) = i + (m + 1 + 1) from by omega] at this
        exact this
      rw [hnone]
      simp
    | some p =>
      simp only [Option.some_bind]
      have hspec1 : specNetAfterStep inputs expected l_rate n1 (i + 1) =
          some p.1 := by
        rw [hs1, hlearn]
        rfl
      rw [ih (i + 1) p.1 p.2 hspec1]
      rw [show i + 1 + (m + 1) = i + (m + 1 + 1) from by omega,
        show i + 1 + m = i + (m + 1) from by omega]

/-- Claim C5: on a non-empty dataset (`expected` as long as `inputs`) and
`epochs ≥ 1`, `train` first performs one `learn` step on sample `0`, whose
loss it returns as the initial loss; it then runs exactly `epochs` further
learning steps in which step `i` uses sample `(inputs[i % N], expected[i %
N])` (the sequence `specNetAfterStep`), returns the loss of the last of
those steps (`specStepLoss` at `epochs - 1`) as the final loss, and ends in
the network those steps produce. -/
theorem c5_train_cyclic_sampling (net : ArtificialNetwork)
    (inputs expected : List (List ℚ)) (l_rate : ℚ) (epochs : ℕ)
    (hN : inputs ≠ []) (hlen : expected.length = inputs.length)
    (hep : 1 ≤ epochs) :
    net.train inputs expected l_rate epochs =
      (net.learn (inputs.getD 0 []) (expected.getD 0 []) l_rate).bind fun p =>
        (specNetAfterStep inputs expected l_rate p.1 epochs).bind fun nf =>
          (specStepLoss inputs expected l_rate p.1 (epochs - 1)).map fun lf =>
            (nf, p.2, lf) := by
  have hN0 : inputs.length ≠ 0 := by
    intro hc
    exact hN (List.length_eq_zero.mp hc)
  have hE : expected ≠ [] := by
    intro hc
    rw [hc] at hlen
    simp at hlen
    exact hN0 hlen.symm
  unfold ArtificialNetwork.train
  rw [if_pos ⟨hN, hE⟩]
  cases hlearn : net.learn (inputs.getD 0 []) (expected.getD 0 []) l_rate with
  | none => simp
  | some p =>
    simp only [Option.some_bind]
    obtain ⟨e, he⟩ : ∃ e, epochs = e + 1 := ⟨epochs - 1, by omega⟩
    subst he
    have hle : inputs.length ≤ expected.length := le_of_eq hlen.symm
    have hmain := trainLoop_eq_spec inputs expected l_rate p.1 hN0 hle e 0 p.1
      0 rfl
    rw [hmain]
    rw [show 0 + (e + 1) = e + 1 from by omega, show 0 + e = e from by omega,
      show e + 1 - 1 = e from by omega]
    cases specNetAfterStep inputs expected l_rate p.1 (e + 1) with
    | none => simp
    | some nf =>
      cases specStepLoss inputs expected l_rate p.1 e with
      | none => simp
      | some lf => simp

/-- Claim C5 witness: `exNet1` trained for one epoch on the one-sample
dataset `([[1]], [[0]])`. -/
theorem c5_witness :
    ArtificialNetwork.train exNet1 [[1]] [[0]] 1 1 =
      (ArtificialNetwork.learn exNet1 (([[1]] : List (List ℚ)).getD 0 [])
          (([[0]] : List (List ℚ)).getD 0 []) 1).bind fun p =>
        (specNetAfterStep [[1]] [[0]] 1 p.1 1).bind fun nf =>
          (specStepLoss [[1]] [[0]] 1 p.1 (1 - 1)).map fun lf =>
            (nf, p.2, lf) :=
  c5_train_cyclic_sampling exNet1 [[1]] [[0]] 1 1 (by simp) (by simp)
    (by omega)
